import Mathlib

/-!
Verification of the admission-control and dispatch core of the
`inference_allocator` repository: the bounded priority queue
(`services/priority_queue.py`), the GPU slot pool
(`services/gpu_manager.py`), the dispatcher
(`services/inference_worker.py`), orchestrator completion handling
(`services/orchestrator.py`) and priority parsing (`models/request.py`).

Python's asyncio primitives (Lock, Condition, Future) and the stdlib
`heapq` module are external collaborators; they are modelled by their
documented semantics.  All repository code is translated directly from
the source files named above.
-/

namespace InferenceAllocator

/-- Request priority levels from `models/request.py`.
Lower numeric value = higher priority. -/
inductive Priority where
  | HIGH
  | MEDIUM
  | LOW
deriving DecidableEq, Repr

/-- The IntEnum numeric value of a priority: HIGH = 1, MEDIUM = 2, LOW = 3.
`AsyncPriorityQueue.put` stores `int(priority)` in the heap entry. -/
def Priority.toNat : Priority → Nat
  | .HIGH => 1
  | .MEDIUM => 2
  | .LOW => 3

/-- Raised when the queue is at max capacity (`services/priority_queue.py`). -/
structure QueueFullError where
deriving DecidableEq, Repr

/-!
Heap entries are the tuples `(int(priority), counter, item)` pushed by
`AsyncPriorityQueue.put`.  Python compares such tuples lexicographically;
the queue's counter is bumped on every `put`, so the first two components
of two distinct live entries never tie and the comparison never reaches
the (possibly incomparable) `item` component.  `entryLt` is that
lexicographic order on the `(priority, counter)` key.
-/

/-- Strict lexicographic order on the `(priority, counter)` key of a heap
entry, mirroring Python tuple comparison (the item is never reached
because live counters are pairwise distinct). -/
def entryLt {T : Type} (a b : Nat × Nat × T) : Prop :=
  a.1 < b.1 ∨ (a.1 = b.1 ∧ a.2.1 < b.2.1)

/-- Non-strict companion of `entryLt`. -/
def entryLe {T : Type} (a b : Nat × Nat × T) : Prop :=
  a.1 < b.1 ∨ (a.1 = b.1 ∧ a.2.1 ≤ b.2.1)

instance {T : Type} (a b : Nat × Nat × T) : Decidable (entryLt a b) := by
  unfold entryLt; infer_instance

instance {T : Type} (a b : Nat × Nat × T) : Decidable (entryLe a b) := by
  unfold entryLe; infer_instance

theorem entryLt_le {T : Type} {a b : Nat × Nat × T} (h : entryLt a b) : entryLe a b := by
  unfold entryLt at h; unfold entryLe; omega

theorem entryLe_refl {T : Type} (a : Nat × Nat × T) : entryLe a a := by
  unfold entryLe; omega

theorem entryLe_trans {T : Type} {a b c : Nat × Nat × T}
    (hab : entryLe a b) (hbc : entryLe b c) : entryLe a c := by
  unfold entryLe at *; omega

theorem entryLe_of_not_lt {T : Type} {a b : Nat × Nat × T}
    (h : ¬ entryLt a b) : entryLe b a := by
  unfold entryLt at h; unfold entryLe; omega

/-- Models `heapq.heappush` (Python stdlib, external to this repository):
it adds one entry to the heap.  The heap's internal array layout is not
observable through the queue interface, so the model keeps entries in
arrival order; `popMin` below extracts the minimum, which is exactly
`heapq.heappop`'s documented behaviour. -/
def heappush {T : Type} (heap : List (Nat × Nat × T)) (entry : Nat × Nat × T) :
    List (Nat × Nat × T) :=
  heap ++ [entry]

/-- Models `heapq.heappop` (Python stdlib): removes and returns the
smallest entry under Python tuple comparison.  The queue's entries carry
pairwise-distinct counters, so the smallest entry is unique and this
determines `heappop` completely; on (impossible) ties the leftmost
minimal entry is taken. -/
def popMin {T : Type} : List (Nat × Nat × T) →
    Option ((Nat × Nat × T) × List (Nat × Nat × T))
  | [] => none
  | x :: xs =>
    match popMin xs with
    | none => some (x, [])
    | some (m, ys) => if entryLt m x then some (m, x :: ys) else some (x, xs)

theorem popMin_eq_none_iff {T : Type} (l : List (Nat × Nat × T)) :
    popMin l = none ↔ l = [] := by
  cases l with
  | nil => simp [popMin]
  | cons x xs =>
    simp only [popMin]
    cases h : popMin xs with
    | none => simp
    | some p =>
      obtain ⟨m, ys⟩ := p
      by_cases hlt : entryLt m x <;> simp [hlt]

theorem popMin_perm {T : Type} {l : List (Nat × Nat × T)}
    {m : Nat × Nat × T} {r : List (Nat × Nat × T)}
    (h : popMin l = some (m, r)) : l.Perm (m :: r) := by
  induction l generalizing m r with
  | nil => simp [popMin] at h
  | cons x xs ih =>
    simp only [popMin] at h
    cases hxs : popMin xs with
    | none =>
      rw [hxs] at h
      have hnil : xs = [] := (popMin_eq_none_iff xs).mp hxs
      simp at h
      subst hnil
      simp [h.1, h.2]
    | some p =>
      obtain ⟨m2, ys⟩ := p
      rw [hxs] at h
      by_cases hlt : entryLt m2 x
      · simp [hlt] at h
        obtain ⟨hm, hr⟩ := h
        subst hm; subst hr
        exact ((ih hxs).cons x).trans (List.Perm.swap _ x ys)
      · simp [hlt] at h
        obtain ⟨hm, hr⟩ := h
        subst hm; subst hr
        exact List.Perm.refl _

theorem popMin_min {T : Type} {l : List (Nat × Nat × T)}
    {m : Nat × Nat × T} {r : List (Nat × Nat × T)}
    (h : popMin l = some (m, r)) : ∀ y ∈ l, entryLe m y := by
  induction l generalizing m r with
  | nil => simp [popMin] at h
  | cons x xs ih =>
    simp only [popMin] at h
    cases hxs : popMin xs with
    | none =>
      rw [hxs] at h
      have hnil : xs = [] := (popMin_eq_none_iff xs).mp hxs
      simp at h
      subst hnil
      intro y hy
      simp at hy
      subst hy
      exact h.1 ▸ entryLe_refl y
    | some p =>
      obtain ⟨m2, ys⟩ := p
      rw [hxs] at h
      by_cases hlt : entryLt m2 x
      · simp [hlt] at h
        obtain ⟨hm, _⟩ := h
        subst hm
        intro y hy
        rcases List.mem_cons.mp hy with hy | hy
        · exact hy ▸ entryLt_le hlt
        · exact ih hxs y hy
      · simp [hlt] at h
        obtain ⟨hm, _⟩ := h
        subst hm
        intro y hy
        rcases List.mem_cons.mp hy with hy | hy
        · exact hy ▸ entryLe_refl _
        · exact entryLe_trans (entryLe_of_not_lt hlt) (ih hxs y hy)

theorem popMin_length {T : Type} {l : List (Nat × Nat × T)}
    {m : Nat × Nat × T} {r : List (Nat × Nat × T)}
    (h : popMin l = some (m, r)) : r.length + 1 = l.length := by
  have := (popMin_perm h).length_eq
  simp at this
  omega

/-- Repeatedly pop the minimal entry until the heap is empty: the entry
sequence produced by draining the queue with `get`. -/
def drainHeap {T : Type} (l : List (Nat × Nat × T)) : List (Nat × Nat × T) :=
  match h : popMin l with
  | none => []
  | some (m, r) => m :: drainHeap r
termination_by l.length
decreasing_by
  have := popMin_length h
  omega

theorem drainHeap_nil {T : Type} : drainHeap ([] : List (Nat × Nat × T)) = [] := by
  rw [drainHeap]
  rfl

theorem drainHeap_eq_cons {T : Type} {l : List (Nat × Nat × T)}
    {m : Nat × Nat × T} {r : List (Nat × Nat × T)}
    (h : popMin l = some (m, r)) : drainHeap l = m :: drainHeap r := by
  rw [drainHeap, h]

theorem drainHeap_perm {T : Type} :
    ∀ (n : Nat) (l : List (Nat × Nat × T)), l.length ≤ n → (drainHeap l).Perm l := by
  intro n
  induction n with
  | zero =>
    intro l hl
    have : l = [] := List.length_eq_zero.mp (Nat.le_zero.mp hl)
    subst this
    simp [drainHeap_nil]
  | succ k ih =>
    intro l hl
    cases h : popMin l with
    | none =>
      have : l = [] := (popMin_eq_none_iff l).mp h
      subst this
      simp [drainHeap_nil]
    | some p =>
      obtain ⟨m, r⟩ := p
      rw [drainHeap_eq_cons h]
      have hlen := popMin_length h
      have hr : r.length ≤ k := by omega
      exact ((ih r hr).cons m).trans (popMin_perm h).symm

theorem drainHeap_pairwise {T : Type} :
    ∀ (n : Nat) (l : List (Nat × Nat × T)), l.length ≤ n →
      (drainHeap l).Pairwise entryLe := by
  intro n
  induction n with
  | zero =>
    intro l hl
    have : l = [] := List.length_eq_zero.mp (Nat.le_zero.mp hl)
    subst this
    simp [drainHeap_nil]
  | succ k ih =>
    intro l hl
    cases h : popMin l with
    | none =>
      have : l = [] := (popMin_eq_none_iff l).mp h
      subst this
      simp [drainHeap_nil]
    | some p =>
      obtain ⟨m, r⟩ := p
      rw [drainHeap_eq_cons h]
      have hlen := popMin_length h
      have hr : r.length ≤ k := by omega
      refine List.Pairwise.cons ?_ (ih r hr)
      intro y hy
      have hyr : y ∈ r := ((drainHeap_perm k r hr).mem_iff).mp hy
      have hyl : y ∈ l := (popMin_perm h).mem_iff.mpr (List.mem_cons_of_mem m hyr)
      exact popMin_min h y hyl

/-- The async bounded priority queue of `services/priority_queue.py`.
The asyncio lock/condition make each operation one atomic critical
section, so the state is just the heap, the arrival counter and the
configured bound. -/
structure AsyncPriorityQueue (T : Type) where
  max_size : Nat
  heap : List (Nat × Nat × T)
  counter : Nat
deriving DecidableEq, Repr

/-- `AsyncPriorityQueue.__init__`: empty heap, counter 0. -/
def AsyncPriorityQueue.new (T : Type) (max_size : Nat) : AsyncPriorityQueue T :=
  { max_size := max_size, heap := [], counter := 0 }

/-- `AsyncPriorityQueue.put`: raises `QueueFullError` when the heap
already holds at least `max_size` entries (returning the state
unchanged), otherwise pushes `(int(priority), counter, item)` and bumps
the counter.  The pair returns the exception outcome together with the
queue state after the call. -/
def AsyncPriorityQueue.put {T : Type} (q : AsyncPriorityQueue T) (item : T)
    (priority : Priority) : Except QueueFullError Unit × AsyncPriorityQueue T :=
  if q.heap.length ≥ q.max_size then
    (.error ⟨⟩, q)
  else
    (.ok (), { q with
      heap := heappush q.heap (priority.toNat, q.counter, item),
      counter := q.counter + 1 })

/-- `AsyncPriorityQueue.get`: pops the minimal entry and returns its
item; `none` models the call suspending forever on an empty queue. -/
def AsyncPriorityQueue.get {T : Type} (q : AsyncPriorityQueue T) :
    Option (T × AsyncPriorityQueue T) :=
  match popMin q.heap with
  | none => none
  | some (e, h) => some (e.2.2, { q with heap := h })

/-- `AsyncPriorityQueue.size`: current number of queued entries. -/
def AsyncPriorityQueue.size {T : Type} (q : AsyncPriorityQueue T) : Nat :=
  q.heap.length

/-- `AsyncPriorityQueue.is_empty`. -/
def AsyncPriorityQueue.isEmpty {T : Type} (q : AsyncPriorityQueue T) : Bool :=
  q.heap.length == 0

/-- A sequence of `put` calls, stopping at the first `QueueFullError`
(the exception propagates to the caller). -/
def putMany {T : Type} (q : AsyncPriorityQueue T) :
    List (T × Priority) → Except QueueFullError Unit × AsyncPriorityQueue T
  | [] => (.ok (), q)
  | (x, p) :: rest =>
    match q.put x p with
    | (.error e, q2) => (.error e, q2)
    | (.ok _, q2) => putMany q2 rest

/-- The heap entries a sequence of successful `put` calls creates,
starting from arrival counter `c`: the i-th put gets counter `c + i`. -/
def entriesFrom {T : Type} (c : Nat) : List (T × Priority) → List (Nat × Nat × T)
  | [] => []
  | (x, p) :: rest => (p.toNat, c, x) :: entriesFrom (c + 1) rest

/-- The item sequence produced by repeatedly calling `get` until the
queue reports empty. -/
def drainGet {T : Type} (q : AsyncPriorityQueue T) : List T :=
  match h : q.get with
  | none => []
  | some (x, q2) => x :: drainGet q2
termination_by q.heap.length
decreasing_by
  unfold AsyncPriorityQueue.get at h
  cases hp : popMin q.heap with
  | none => rw [hp] at h; simp at h
  | some p =>
    obtain ⟨e, hp2⟩ := p
    rw [hp] at h
    simp at h
    have := popMin_length hp
    rw [← h.2]
    simp
    omega

theorem drainGet_none {T : Type} {q : AsyncPriorityQueue T}
    (h : q.get = none) : drainGet q = [] := by
  rw [drainGet]
  split
  · rfl
  · rename_i x q2 heq
    rw [h] at heq
    cases heq

theorem drainGet_cons {T : Type} {q : AsyncPriorityQueue T} {x : T}
    {q2 : AsyncPriorityQueue T} (h : q.get = some (x, q2)) :
    drainGet q = x :: drainGet q2 := by
  rw [drainGet]
  split
  · rename_i heq
    rw [h] at heq
    cases heq
  · rename_i y q3 heq
    rw [h] at heq
    cases heq
    rfl

/-- Draining the queue with repeated `get` calls yields exactly the item
components of the min-extraction sequence of its heap. -/
theorem drainGet_eq_map {T : Type} :
    ∀ (n : Nat) (q : AsyncPriorityQueue T), q.heap.length ≤ n →
      drainGet q = (drainHeap q.heap).map (fun e => e.2.2) := by
  intro n
  induction n with
  | zero =>
    intro q hq
    have hnil : q.heap = [] := List.length_eq_zero.mp (Nat.le_zero.mp hq)
    have hget : q.get = none := by
      unfold AsyncPriorityQueue.get
      rw [hnil]
      rfl
    rw [drainGet_none hget, hnil, drainHeap_nil]
    rfl
  | succ k ih =>
    intro q hq
    cases hp : popMin q.heap with
    | none =>
      have hnil : q.heap = [] := (popMin_eq_none_iff _).mp hp
      have hget : q.get = none := by
        unfold AsyncPriorityQueue.get
        rw [hnil]
        rfl
      rw [drainGet_none hget, hnil, drainHeap_nil]
      rfl
    | some p =>
      obtain ⟨e, r⟩ := p
      have hget : q.get = some (e.2.2, { q with heap := r }) := by
        unfold AsyncPriorityQueue.get
        rw [hp]
      have hlen := popMin_length hp
      rw [drainGet_cons hget, drainHeap_eq_cons hp]
      have := ih { q with heap := r } (by simp; omega)
      simp at this ⊢
      exact this

theorem putMany_ok_characterization {T : Type} :
    ∀ (puts : List (T × Priority)) (q : AsyncPriorityQueue T),
      (putMany q puts).1 = Except.ok () →
      (putMany q puts).2.heap = q.heap ++ entriesFrom q.counter puts ∧
      (putMany q puts).2.counter = q.counter + puts.length := by
  intro puts
  induction puts with
  | nil =>
    intro q _
    simp [putMany, entriesFrom]
  | cons xp rest ih =>
    intro q h
    obtain ⟨x, p⟩ := xp
    by_cases hfull : q.heap.length ≥ q.max_size
    · have hput : q.put x p = (Except.error ⟨⟩, q) := by
        unfold AsyncPriorityQueue.put
        rw [if_pos hfull]
      rw [putMany, hput] at h
      simp at h
    · have hput : q.put x p = (Except.ok (), { q with
          heap := heappush q.heap (p.toNat, q.counter, x),
          counter := q.counter + 1 }) := by
        unfold AsyncPriorityQueue.put
        rw [if_neg hfull]
      rw [putMany, hput] at h ⊢
      simp only at h ⊢
      obtain ⟨hheap, hcounter⟩ := ih _ h
      simp only [hheap, hcounter]
      unfold heappush
      simp [entriesFrom, List.append_assoc]
      omega

theorem entriesFrom_counters {T : Type} :
    ∀ (puts : List (T × Priority)) (c : Nat),
      (entriesFrom c puts).map (fun e => e.2.1) = List.range' c puts.length := by
  intro puts
  induction puts with
  | nil => intro c; simp [entriesFrom]
  | cons xp rest ih =>
    intro c
    obtain ⟨x, p⟩ := xp
    simp [entriesFrom, List.range'_succ, ih]

theorem pairwise_combine {α : Type} {R S : α → α → Prop} :
    ∀ {l : List α}, l.Pairwise R → l.Pairwise S →
      l.Pairwise (fun a b => R a b ∧ S a b) := by
  intro l
  induction l with
  | nil => intro _ _; exact List.Pairwise.nil
  | cons a l ih =>
    intro hR hS
    rw [List.pairwise_cons] at hR hS ⊢
    exact ⟨fun b hb => ⟨hR.1 b hb, hS.1 b hb⟩, ih hR.2 hS.2⟩

theorem pairwise_lt_of_le_of_counters {T : Type} {l : List (Nat × Nat × T)}
    (hle : l.Pairwise entryLe)
    (hnd : (l.map (fun e => e.2.1)).Nodup) : l.Pairwise entryLt := by
  have hne : l.Pairwise (fun a b : Nat × Nat × T => a.2.1 ≠ b.2.1) := by
    rw [List.Nodup, List.pairwise_map] at hnd
    exact hnd
  refine (pairwise_combine hle hne).imp ?_
  intro a b hab
  obtain ⟨h1, h2⟩ := hab
  unfold entryLe at h1
  unfold entryLt
  omega

/-- C1: every sequence of successful `put` calls, drained by repeated
`get`, returns the items sorted strictly by the lexicographic
(priority, arrival-sequence) key: ascending priority, and FIFO order
(ascending arrival counter, i.e. relative put order) within equal
priority. -/
theorem put_get_priority_fifo {T : Type} (max_size : Nat)
    (puts : List (T × Priority))
    (hok : (putMany (AsyncPriorityQueue.new T max_size) puts).1 = Except.ok ()) :
    ∃ es : List (Nat × Nat × T),
      es.Perm (entriesFrom 0 puts) ∧
      es.Pairwise entryLt ∧
      drainGet (putMany (AsyncPriorityQueue.new T max_size) puts).2 =
        es.map (fun e => e.2.2) := by
  have hheap : (putMany (AsyncPriorityQueue.new T max_size) puts).2.heap =
      entriesFrom 0 puts := by
    have h1 := (putMany_ok_characterization puts _ hok).1
    simpa [AsyncPriorityQueue.new] using h1
  refine ⟨drainHeap (entriesFrom 0 puts), ?_, ?_, ?_⟩
  · exact drainHeap_perm _ _ (Nat.le_refl _)
  · apply pairwise_lt_of_le_of_counters
    · exact drainHeap_pairwise _ _ (Nat.le_refl _)
    · have hperm := (drainHeap_perm _ (entriesFrom 0 puts)
        (Nat.le_refl _)).map (fun e : Nat × Nat × T => e.2.1)
      rw [entriesFrom_counters] at hperm
      exact hperm.nodup_iff.mpr (List.nodup_range' _ _ 1 Nat.one_pos)
  · rw [drainGet_eq_map _ _ (Nat.le_refl _), hheap]

/-- C2: when the queue already holds at least `max_size` entries, `put`
raises `QueueFullError` and leaves the heap, the arrival counter and the
reported size unchanged. -/
theorem put_full_no_mutation {T : Type} (q : AsyncPriorityQueue T) (item : T)
    (p : Priority) (h : q.max_size ≤ q.size) :
    (q.put item p).1 = Except.error ⟨⟩ ∧
    (q.put item p).2.heap = q.heap ∧
    (q.put item p).2.counter = q.counter ∧
    (q.put item p).2.size = q.size := by
  unfold AsyncPriorityQueue.size at h ⊢
  unfold AsyncPriorityQueue.put
  rw [if_pos h]
  exact ⟨rfl, rfl, rfl, rfl⟩

/-- Witness for C1 at a concrete put sequence. -/
theorem put_get_priority_fifo_witness :
    (putMany (AsyncPriorityQueue.new Nat 10)
      [(10, Priority.LOW), (20, Priority.HIGH), (30, Priority.LOW),
       (40, Priority.HIGH)]).1 = Except.ok () ∧
    ∃ es : List (Nat × Nat × Nat),
      es.Perm (entriesFrom 0 [(10, Priority.LOW), (20, Priority.HIGH),
        (30, Priority.LOW), (40, Priority.HIGH)]) ∧
      es.Pairwise entryLt ∧
      drainGet (putMany (AsyncPriorityQueue.new Nat 10)
        [(10, Priority.LOW), (20, Priority.HIGH), (30, Priority.LOW),
         (40, Priority.HIGH)]).2 = es.map (fun e => e.2.2) :=
  ⟨rfl, put_get_priority_fifo 10 _ rfl⟩

/-- Witness for C2 at a concrete full queue. -/
theorem put_full_no_mutation_witness :
    ((AsyncPriorityQueue.new Nat 0).put 7 Priority.HIGH).1 = Except.error ⟨⟩ ∧
    ((AsyncPriorityQueue.new Nat 0).put 7 Priority.HIGH).2.heap =
      (AsyncPriorityQueue.new Nat 0).heap ∧
    ((AsyncPriorityQueue.new Nat 0).put 7 Priority.HIGH).2.counter =
      (AsyncPriorityQueue.new Nat 0).counter ∧
    ((AsyncPriorityQueue.new Nat 0).put 7 Priority.HIGH).2.size =
      (AsyncPriorityQueue.new Nat 0).size :=
  put_full_no_mutation (AsyncPriorityQueue.new Nat 0) 7 Priority.HIGH (by decide)

/-- GPU availability state (`models/gpu.py`). -/
inductive GPUState where
  | AVAILABLE
  | BUSY
deriving DecidableEq, Repr

/-- A single GPU slot (`models/gpu.py`). -/
structure GPUSlot where
  gpu_id : Nat
  state : GPUState
deriving DecidableEq, Repr

/-- Raised by a Python dict lookup with a missing key. -/
structure KeyError where
deriving DecidableEq, Repr

/-- The GPU pool of `services/gpu_manager.py`.  The Python dict maps id
`i` to slot `i` and iterates in insertion order `0..n-1`; the list keeps
the slots in that order.  The asyncio lock/condition make each
operation a single atomic critical section. -/
structure GPUManager where
  gpus : List GPUSlot
deriving DecidableEq, Repr

/-- `GPUManager.__init__(gpu_count)`: slots `0..n-1`, all AVAILABLE. -/
def GPUManager.init (n : Nat) : GPUManager :=
  ⟨(List.range n).map (fun i => ⟨i, GPUState.AVAILABLE⟩)⟩

/-- The scan of `acquire_gpu`: find the first AVAILABLE slot in
iteration order, mark it BUSY and return it (the returned object is the
mutated slot). -/
def acquireAux : List GPUSlot → Option (GPUSlot × List GPUSlot)
  | [] => none
  | g :: gs =>
    if g.state = GPUState.AVAILABLE then
      some (⟨g.gpu_id, GPUState.BUSY⟩, ⟨g.gpu_id, GPUState.BUSY⟩ :: gs)
    else
      match acquireAux gs with
      | none => none
      | some (s, gs2) => some (s, g :: gs2)

/-- `GPUManager.acquire_gpu`: returns the first AVAILABLE slot after
marking it BUSY; `none` models the call suspending on the condition
until a slot is free. -/
def GPUManager.acquire_gpu (m : GPUManager) : Option (GPUSlot × GPUManager) :=
  (acquireAux m.gpus).map (fun p => (p.1, ⟨p.2⟩))

/-- `GPUManager.release_gpu(gpu_id)`: if the id is a known key, set that
slot's state to AVAILABLE (and notify one waiter); an unknown id is
ignored.  Slot ids are the unique dict keys, so the keyed update equals
a map that rewrites exactly the slots carrying this id and is the
identity when the id is unknown. -/
def GPUManager.release_gpu (m : GPUManager) (gpu_id : Nat) : GPUManager :=
  ⟨m.gpus.map (fun g =>
    if g.gpu_id = gpu_id then { g with state := GPUState.AVAILABLE } else g)⟩

/-- `GPUManager.get_gpu_state(gpu_id)`: a plain dict subscript, raising
`KeyError` when the id is not a key. -/
def GPUManager.get_gpu_state (m : GPUManager) (gpu_id : Nat) :
    Except KeyError GPUState :=
  match m.gpus.find? (fun g => g.gpu_id == gpu_id) with
  | some g => .ok g.state
  | none => .error ⟨⟩

/-- `GPUManager.get_all_states`. -/
def GPUManager.get_all_states (m : GPUManager) : List (Nat × GPUState) :=
  m.gpus.map (fun g => (g.gpu_id, g.state))

/-- `GPUManager.available_count`: number of AVAILABLE slots. -/
def GPUManager.available_count (m : GPUManager) : Nat :=
  m.gpus.countP (fun g => g.state == GPUState.AVAILABLE)

/-- `GPUManager.busy_count`: number of BUSY slots. -/
def GPUManager.busy_count (m : GPUManager) : Nat :=
  m.gpus.countP (fun g => g.state == GPUState.BUSY)

instance : BEq GPUState := ⟨fun a b => decide (a = b)⟩

theorem map_id_of_pointwise {α : Type} (f : α → α) :
    ∀ (l : List α), (∀ a ∈ l, f a = a) → l.map f = l := by
  intro l
  induction l with
  | nil => intro _; rfl
  | cons a l ih =>
    intro h
    rw [List.map_cons, h a (List.mem_cons_self a l),
      ih (fun b hb => h b (List.mem_cons_of_mem a hb))]

theorem counts_add_length (l : List GPUSlot) :
    l.countP (fun g => g.state == GPUState.AVAILABLE) +
    l.countP (fun g => g.state == GPUState.BUSY) = l.length := by
  induction l with
  | nil => simp
  | cons g gs ih =>
    rw [List.countP_cons, List.countP_cons]
    cases hst : g.state <;> simp [hst] <;> omega

theorem acquireAux_spec :
    ∀ {gs : List GPUSlot} {g : GPUSlot} {gs2 : List GPUSlot},
      acquireAux gs = some (g, gs2) →
      ∃ i, ∃ hi : i < gs.length,
        (gs.get ⟨i, hi⟩).state = GPUState.AVAILABLE ∧
        g = ⟨(gs.get ⟨i, hi⟩).gpu_id, GPUState.BUSY⟩ ∧
        gs2 = gs.set i ⟨(gs.get ⟨i, hi⟩).gpu_id, GPUState.BUSY⟩ := by
  intro gs
  induction gs with
  | nil => intro g gs2 h; simp [acquireAux] at h
  | cons a rest ih =>
    intro g gs2 h
    by_cases ha : a.state = GPUState.AVAILABLE
    · rw [acquireAux, if_pos ha] at h
      simp at h
      refine ⟨0, by simp, ?_⟩
      simp [← h.1, ← h.2, ha]
    · rw [acquireAux, if_neg ha] at h
      cases hrec : acquireAux rest with
      | none => rw [hrec] at h; simp at h
      | some p =>
        obtain ⟨s, rest2⟩ := p
        rw [hrec] at h
        simp at h
        obtain ⟨hg, hgs2⟩ := h
        obtain ⟨i, hi, hav, hs, hset⟩ := ih hrec
        refine ⟨i + 1, by simp; omega, ?_, ?_, ?_⟩
        · simpa using hav
        · subst hs; simpa using hg.symm
        · subst hset; subst hgs2; simp

theorem acquireAux_total :
    ∀ {gs : List GPUSlot}, (∃ g ∈ gs, g.state = GPUState.AVAILABLE) →
      (acquireAux gs).isSome := by
  intro gs
  induction gs with
  | nil => intro h; simp at h
  | cons a rest ih =>
    intro h
    by_cases ha : a.state = GPUState.AVAILABLE
    · rw [acquireAux, if_pos ha]; rfl
    · rw [acquireAux, if_neg ha]
      have hrest : ∃ g ∈ rest, g.state = GPUState.AVAILABLE := by
        obtain ⟨g, hg, hgav⟩ := h
        rcases List.mem_cons.mp hg with rfl | hg
        · exact absurd hgav ha
        · exact ⟨g, hg, hgav⟩
      have := ih hrest
      cases hrec : acquireAux rest with
      | none => rw [hrec] at this; simp at this
      | some p => obtain ⟨s, rest2⟩ := p; rfl

/-- C4: whenever at least one slot is AVAILABLE, `acquire_gpu` returns a
slot that was AVAILABLE at some position, and in the same atomic
critical section transitions exactly that slot to BUSY (all other slots
untouched); the slot it hands back is never one that was already
BUSY. -/
theorem acquire_takes_available_slot (m : GPUManager)
    (h : ∃ g ∈ m.gpus, g.state = GPUState.AVAILABLE) :
    ∃ slot m2, m.acquire_gpu = some (slot, m2) ∧
      ∃ i, ∃ hi : i < m.gpus.length,
        (m.gpus.get ⟨i, hi⟩).state = GPUState.AVAILABLE ∧
        slot = ⟨(m.gpus.get ⟨i, hi⟩).gpu_id, GPUState.BUSY⟩ ∧
        m2.gpus = m.gpus.set i ⟨(m.gpus.get ⟨i, hi⟩).gpu_id, GPUState.BUSY⟩ := by
  have htot := acquireAux_total h
  cases hrec : acquireAux m.gpus with
  | none => rw [hrec] at htot; simp at htot
  | some p =>
    obtain ⟨s, gs2⟩ := p
    obtain ⟨i, hi, hav, hs, hset⟩ := acquireAux_spec hrec
    refine ⟨s, ⟨gs2⟩, ?_, i, hi, hav, hs, hset⟩
    unfold GPUManager.acquire_gpu
    rw [hrec]
    rfl

/-- Witness for C4 on a two-slot pool whose first slot is busy. -/
theorem acquire_takes_available_slot_witness :
    ∃ slot m2,
      (GPUManager.mk [⟨0, GPUState.BUSY⟩, ⟨1, GPUState.AVAILABLE⟩]).acquire_gpu
        = some (slot, m2) ∧
      ∃ i, ∃ hi : i <
          (GPUManager.mk [⟨0, GPUState.BUSY⟩, ⟨1, GPUState.AVAILABLE⟩]).gpus.length,
        ((GPUManager.mk [⟨0, GPUState.BUSY⟩,
            ⟨1, GPUState.AVAILABLE⟩]).gpus.get ⟨i, hi⟩).state = GPUState.AVAILABLE ∧
        slot = ⟨((GPUManager.mk [⟨0, GPUState.BUSY⟩,
            ⟨1, GPUState.AVAILABLE⟩]).gpus.get ⟨i, hi⟩).gpu_id, GPUState.BUSY⟩ ∧
        m2.gpus = (GPUManager.mk [⟨0, GPUState.BUSY⟩,
            ⟨1, GPUState.AVAILABLE⟩]).gpus.set i
          ⟨((GPUManager.mk [⟨0, GPUState.BUSY⟩,
              ⟨1, GPUState.AVAILABLE⟩]).gpus.get ⟨i, hi⟩).gpu_id, GPUState.BUSY⟩ :=
  acquire_takes_available_slot _ ⟨⟨1, GPUState.AVAILABLE⟩, by decide, rfl⟩

/-- C3: `available_count + busy_count` equals the slot count `N` of the
freshly constructed pool, and both `acquire_gpu` and `release_gpu`
preserve the number of slots and that sum (every slot is always in
exactly one of the two states; no slot is created or destroyed). -/
theorem counts_partition_invariant (n : Nat) :
    ((GPUManager.init n).available_count + (GPUManager.init n).busy_count = n) ∧
    (∀ m : GPUManager, m.available_count + m.busy_count = m.gpus.length) ∧
    (∀ (m : GPUManager) (slot : GPUSlot) (m2 : GPUManager),
      m.acquire_gpu = some (slot, m2) → m2.gpus.length = m.gpus.length) ∧
    (∀ (m : GPUManager) (gpu_id : Nat),
      (m.release_gpu gpu_id).gpus.length = m.gpus.length) := by
  refine ⟨?_, ?_, ?_, ?_⟩
  · unfold GPUManager.init GPUManager.available_count GPUManager.busy_count
    rw [counts_add_length]
    simp
  · intro m
    exact counts_add_length m.gpus
  · intro m slot m2 h
    unfold GPUManager.acquire_gpu at h
    cases hrec : acquireAux m.gpus with
    | none => rw [hrec] at h; simp at h
    | some p =>
      obtain ⟨s, gs2⟩ := p
      rw [hrec] at h
      simp at h
      obtain ⟨i, hi, _, _, hset⟩ := acquireAux_spec hrec
      rw [← h.2, hset]
      simp
  · intro m gpu_id
    unfold GPUManager.release_gpu
    simp

/-- Witness for C3 components at a concrete pool, including a concrete
acquire step. -/
theorem counts_partition_invariant_witness :
    ((GPUManager.init 3).available_count + (GPUManager.init 3).busy_count = 3) ∧
    ((GPUManager.mk [⟨0, GPUState.BUSY⟩, ⟨1, GPUState.AVAILABLE⟩]).available_count +
      (GPUManager.mk [⟨0, GPUState.BUSY⟩, ⟨1, GPUState.AVAILABLE⟩]).busy_count =
      (GPUManager.mk [⟨0, GPUState.BUSY⟩, ⟨1, GPUState.AVAILABLE⟩]).gpus.length) ∧
    (GPUManager.mk [⟨0, GPUState.BUSY⟩]).gpus.length =
      (GPUManager.init 1).gpus.length ∧
    ((GPUManager.init 1).release_gpu 0).gpus.length =
      (GPUManager.init 1).gpus.length :=
  ⟨(counts_partition_invariant 3).1,
   (counts_partition_invariant 3).2.1 _,
   (counts_partition_invariant 1).2.2.1 (GPUManager.init 1)
     ⟨0, GPUState.BUSY⟩ (GPUManager.mk [⟨0, GPUState.BUSY⟩]) (by decide),
   (counts_partition_invariant 1).2.2.2 (GPUManager.init 1) 0⟩

theorem release_gpu_noop_aux (m : GPUManager) (gpu_id : Nat)
    (h : ∀ g ∈ m.gpus, g.gpu_id = gpu_id → g.state = GPUState.AVAILABLE) :
    m.release_gpu gpu_id = m := by
  unfold GPUManager.release_gpu
  have hmap : m.gpus.map (fun g =>
      if g.gpu_id = gpu_id then { g with state := GPUState.AVAILABLE } else g)
      = m.gpus := by
    apply map_id_of_pointwise
    intro g hg
    by_cases hid : g.gpu_id = gpu_id
    · have := h g hg hid
      rw [if_pos hid]
      cases g
      simp_all
    · rw [if_neg hid]
  rw [hmap]

/-- C5: `release_gpu` with an id for which every slot carrying that id
is already AVAILABLE — in particular an unknown id, which no slot
carries — succeeds and leaves the slot table unchanged. -/
theorem release_unknown_or_available_noop (m : GPUManager) (gpu_id : Nat)
    (h : ∀ g ∈ m.gpus, g.gpu_id = gpu_id → g.state = GPUState.AVAILABLE) :
    m.release_gpu gpu_id = m :=
  release_gpu_noop_aux m gpu_id h

/-- Witness for C5: releasing the unknown id 5 and the AVAILABLE slot 1. -/
theorem release_unknown_or_available_noop_witness :
    (GPUManager.mk [⟨0, GPUState.BUSY⟩,
      ⟨1, GPUState.AVAILABLE⟩]).release_gpu 5 =
      GPUManager.mk [⟨0, GPUState.BUSY⟩, ⟨1, GPUState.AVAILABLE⟩] ∧
    (GPUManager.mk [⟨0, GPUState.BUSY⟩,
      ⟨1, GPUState.AVAILABLE⟩]).release_gpu 1 =
      GPUManager.mk [⟨0, GPUState.BUSY⟩, ⟨1, GPUState.AVAILABLE⟩] :=
  ⟨release_unknown_or_available_noop _ 5 (by decide),
   release_unknown_or_available_noop _ 1 (by decide)⟩

theorem map_congr_pointwise {α β : Type} (f g : α → β) :
    ∀ (l : List α), (∀ a ∈ l, f a = g a) → l.map f = l.map g := by
  intro l
  induction l with
  | nil => intro _; rfl
  | cons a l ih =>
    intro h
    rw [List.map_cons, List.map_cons, h a (List.mem_cons_self a l),
      ih (fun b hb => h b (List.mem_cons_of_mem a hb))]

/-- The pool constructed with `n` slots uses the dict keys `0..n-1`. -/
theorem ids_init (n : Nat) :
    (GPUManager.init n).gpus.map (fun g => g.gpu_id) = List.range n := by
  unfold GPUManager.init
  simp [List.map_map]
  exact List.map_id _

theorem acquireAux_ids :
    ∀ {gs : List GPUSlot} {g : GPUSlot} {gs2 : List GPUSlot},
      acquireAux gs = some (g, gs2) →
      gs2.map (fun x => x.gpu_id) = gs.map (fun x => x.gpu_id) := by
  intro gs
  induction gs with
  | nil => intro g gs2 h; simp [acquireAux] at h
  | cons a rest ih =>
    intro g gs2 h
    by_cases ha : a.state = GPUState.AVAILABLE
    · rw [acquireAux, if_pos ha] at h
      simp at h
      rw [← h.2]
      simp
    · rw [acquireAux, if_neg ha] at h
      cases hrec : acquireAux rest with
      | none => rw [hrec] at h; simp at h
      | some p =>
        obtain ⟨s, rest2⟩ := p
        rw [hrec] at h
        simp at h
        rw [← h.2]
        simp [ih hrec]

/-- `acquire_gpu` never changes the set of slot ids. -/
theorem ids_acquire {m : GPUManager} {slot : GPUSlot} {m2 : GPUManager}
    (h : m.acquire_gpu = some (slot, m2)) :
    m2.gpus.map (fun g => g.gpu_id) = m.gpus.map (fun g => g.gpu_id) := by
  unfold GPUManager.acquire_gpu at h
  cases hrec : acquireAux m.gpus with
  | none => rw [hrec] at h; simp at h
  | some p =>
    obtain ⟨s, gs2⟩ := p
    rw [hrec] at h
    simp at h
    rw [← h.2]
    exact acquireAux_ids hrec

/-- `release_gpu` never changes the set of slot ids. -/
theorem ids_release (m : GPUManager) (gpu_id : Nat) :
    (m.release_gpu gpu_id).gpus.map (fun g => g.gpu_id) =
      m.gpus.map (fun g => g.gpu_id) := by
  unfold GPUManager.release_gpu
  rw [List.map_map]
  apply map_congr_pointwise
  intro g _
  by_cases hid : g.gpu_id = gpu_id
  · simp [hid]
  · simp [hid]

theorem find_slot_of_ids :
    ∀ (l : List GPUSlot) (s gpu_id : Nat),
      l.map (fun g => g.gpu_id) = List.range' s l.length →
      s ≤ gpu_id → gpu_id < s + l.length →
      ∃ hi : gpu_id - s < l.length,
        l.find? (fun g => g.gpu_id == gpu_id) = some (l.get ⟨gpu_id - s, hi⟩) := by
  intro l
  induction l with
  | nil => intro s gpu_id _ hle hlt; simp at hlt; omega
  | cons a rest ih =>
    intro s gpu_id hids hle hlt
    rw [List.length_cons, List.range'_succ, List.map_cons, List.cons_eq_cons] at hids
    obtain ⟨hid0, hrest⟩ := hids
    by_cases heq : gpu_id = s
    · subst heq
      have hfind : (a :: rest).find? (fun g => g.gpu_id == gpu_id) = some a :=
        List.find?_cons_of_pos _ (by simp [hid0])
      refine ⟨by simp, ?_⟩
      rw [hfind]
      congr 1
      simp
    · have hgt : s + 1 ≤ gpu_id := by omega
      have hfind : (a :: rest).find? (fun g => g.gpu_id == gpu_id) =
          rest.find? (fun g => g.gpu_id == gpu_id) :=
        List.find?_cons_of_neg _ (by simp [hid0]; omega)
      obtain ⟨hi, hfound⟩ := ih (s + 1) gpu_id hrest hgt (by simp at hlt ⊢; omega)
      have hidx : gpu_id - s = (gpu_id - (s + 1)) + 1 := by omega
      refine ⟨by simp; omega, ?_⟩
      rw [hfind, hfound]
      congr 1
      simp only [hidx]
      exact List.get_cons_succ.symm

/-- C10: on a pool whose slot ids are `0..n-1` — as constructed and
preserved by acquire and release — `get_gpu_state` returns the current
state of the slot for every id below `n`, but raises `KeyError` for any
id outside the range, while `release_gpu` on such an unknown id is a
silent no-op: querying an unknown slot is a caller-visible failure,
releasing one is not. -/
theorem get_gpu_state_known_vs_unknown (n : Nat) (m : GPUManager)
    (gpu_id : Nat)
    (hids : m.gpus.map (fun g => g.gpu_id) = List.range n) :
    (gpu_id < n → ∃ hi : gpu_id < m.gpus.length,
      m.get_gpu_state gpu_id = Except.ok ((m.gpus.get ⟨gpu_id, hi⟩).state)) ∧
    (n ≤ gpu_id → m.get_gpu_state gpu_id = Except.error ⟨⟩ ∧
      m.release_gpu gpu_id = m) := by
  have hlen : m.gpus.length = n := by
    have := congrArg List.length hids
    simpa using this
  constructor
  · intro hlt
    have hr : m.gpus.map (fun g => g.gpu_id) = List.range' 0 m.gpus.length := by
      rw [hids, hlen, List.range_eq_range']
    obtain ⟨hi, hfound⟩ := find_slot_of_ids m.gpus 0 gpu_id hr
      (Nat.zero_le _) (by omega)
    refine ⟨by omega, ?_⟩
    unfold GPUManager.get_gpu_state
    rw [hfound]
    simp
  · intro hge
    have hmem : ∀ g ∈ m.gpus, g.gpu_id ≠ gpu_id := by
      intro g hg
      have : g.gpu_id ∈ List.range n := by
        rw [← hids]
        exact List.mem_map_of_mem _ hg
      have := List.mem_range.mp this
      omega
    refine ⟨?_, ?_⟩
    · unfold GPUManager.get_gpu_state
      have hnone : m.gpus.find? (fun g => g.gpu_id == gpu_id) = none := by
        rw [List.find?_eq_none]
        intro g hg
        simp [hmem g hg]
      rw [hnone]
    · exact release_gpu_noop_aux m gpu_id
        (fun g hg hid => absurd hid (hmem g hg))

/-- Witness for C10 on a fresh three-slot pool: id 1 is queryable, id 5
raises `KeyError` while `release_gpu 5` silently does nothing. -/
theorem get_gpu_state_known_vs_unknown_witness :
    (∃ hi : 1 < (GPUManager.init 3).gpus.length,
      (GPUManager.init 3).get_gpu_state 1 =
        Except.ok (((GPUManager.init 3).gpus.get ⟨1, hi⟩).state)) ∧
    ((GPUManager.init 3).get_gpu_state 5 = Except.error ⟨⟩ ∧
      (GPUManager.init 3).release_gpu 5 = GPUManager.init 3) :=
  ⟨(get_gpu_state_known_vs_unknown 3 (GPUManager.init 3) 1 (ids_init 3)).1
      (by omega),
   (get_gpu_state_known_vs_unknown 3 (GPUManager.init 3) 5 (ids_init 3)).2
      (by omega)⟩

/-- An incoming inference request (`models/request.py`), after pydantic
validation. -/
structure InferenceRequest where
  model_id : String
  prompt : String
  priority : Priority
  request_id : Option String
deriving DecidableEq, Repr

/-- The response built by `InferenceWorker.execute`
(`models/request.py`).  The Python field `inference_time_ms` is a
float; the logic only passes the measured value through, so it is
carried here as a natural number of milliseconds. -/
structure InferenceResponse where
  request_id : String
  model_id : String
  output : String
  gpu_id : Nat
  inference_time_ms : Nat
deriving DecidableEq, Repr

/-- An exception raised by the awaited execution step (the opaque
execute capability of the spec). -/
structure ExecError where
  code : Nat
deriving DecidableEq, Repr

/-- The ambient effects of one `InferenceWorker.execute` call: the uuid
`str(uuid.uuid4())` would generate, the elapsed time the perf counter
would measure, and whether the awaited mock-inference step returns or
raises. -/
structure ExecEnv where
  uuid : String
  elapsed_ms : Nat
  outcome : Except ExecError Unit
deriving Repr

/-- Python `x or y` on an optional string `x`: yields `y` when `x` is
None or the empty string (both falsy), otherwise the string in `x`.
This is how `execute` computes `request.request_id or str(uuid.uuid4())`. -/
def pyOr (v : Option String) (d : String) : String :=
  match v with
  | none => d
  | some s => if s = "" then d else s

/-- `InferenceWorker.execute` (`services/inference_worker.py`): acquire
a GPU, run the mock inference inside `try`, build the response, and
release the GPU in the `finally` block on both the normal and the
raising path.  `none` models suspension inside `acquire_gpu` while no
slot is free. -/
def InferenceWorker.execute (env : ExecEnv) (gm : GPUManager)
    (request : InferenceRequest) :
    Option (Except ExecError InferenceResponse × GPUManager) :=
  match gm.acquire_gpu with
  | none => none
  | some (gpu, gm1) =>
    match env.outcome with
    | .error e => some (.error e, gm1.release_gpu gpu.gpu_id)
    | .ok _ =>
      some (.ok {
        request_id := pyOr request.request_id env.uuid,
        model_id := request.model_id,
        output := "Mock output for: " ++ request.prompt.take 50,
        gpu_id := gpu.gpu_id,
        inference_time_ms := env.elapsed_ms }, gm1.release_gpu gpu.gpu_id)

theorem release_find_available :
    ∀ (l : List GPUSlot) (gpu_id : Nat),
      (∃ g ∈ l, g.gpu_id = gpu_id) →
      (l.map (fun g => if g.gpu_id = gpu_id
          then { g with state := GPUState.AVAILABLE } else g)).find?
        (fun g => g.gpu_id == gpu_id) = some ⟨gpu_id, GPUState.AVAILABLE⟩ := by
  intro l
  induction l with
  | nil => intro gpu_id h; simp at h
  | cons a rest ih =>
    intro gpu_id h
    rw [List.map_cons]
    by_cases hid : a.gpu_id = gpu_id
    · rw [if_pos hid]
      have hfind := List.find?_cons_of_pos
        (p := fun g : GPUSlot => g.gpu_id == gpu_id)
        (a := { a with state := GPUState.AVAILABLE })
        (List.map (fun g => if g.gpu_id = gpu_id
          then { g with state := GPUState.AVAILABLE } else g) rest)
        (by simp [hid])
      rw [hfind]
      simp [hid]
    · rw [if_neg hid]
      have hrest : ∃ g ∈ rest, g.gpu_id = gpu_id := by
        obtain ⟨g, hg, hgid⟩ := h
        rcases List.mem_cons.mp hg with rfl | hg
        · exact absurd hgid hid
        · exact ⟨g, hg, hgid⟩
      have hfind := List.find?_cons_of_neg
        (p := fun g : GPUSlot => g.gpu_id == gpu_id) (a := a)
        (List.map (fun g => if g.gpu_id = gpu_id
          then { g with state := GPUState.AVAILABLE } else g) rest)
        (by simp [hid])
      rw [hfind]
      exact ih gpu_id hrest

/-- After releasing a known slot id, querying that id reports
AVAILABLE. -/
theorem release_get_state (m : GPUManager) (gpu_id : Nat)
    (h : ∃ g ∈ m.gpus, g.gpu_id = gpu_id) :
    (m.release_gpu gpu_id).get_gpu_state gpu_id =
      Except.ok GPUState.AVAILABLE := by
  unfold GPUManager.get_gpu_state GPUManager.release_gpu
  rw [release_find_available m.gpus gpu_id h]

/-- The slot handed out by `acquire_gpu` is a member of the resulting
slot table, under its id. -/
theorem acquire_slot_mem {m : GPUManager} {slot : GPUSlot} {m2 : GPUManager}
    (h : m.acquire_gpu = some (slot, m2)) :
    ∃ g ∈ m2.gpus, g.gpu_id = slot.gpu_id := by
  unfold GPUManager.acquire_gpu at h
  cases hrec : acquireAux m.gpus with
  | none => rw [hrec] at h; simp at h
  | some p =>
    obtain ⟨s, gs2⟩ := p
    rw [hrec] at h
    simp at h
    obtain ⟨i, hi, _, hs, hset⟩ := acquireAux_spec hrec
    obtain ⟨hslot, hm2⟩ := h
    refine ⟨⟨(m.gpus.get ⟨i, hi⟩).gpu_id, GPUState.BUSY⟩, ?_, ?_⟩
    · rw [← hm2]
      simp only [hset]
      have hlen : i < (m.gpus.set i
          ⟨(m.gpus.get ⟨i, hi⟩).gpu_id, GPUState.BUSY⟩).length := by
        simpa using hi
      have hget := List.getElem_set_self (l := m.gpus) (i := i)
        (a := ⟨(m.gpus.get ⟨i, hi⟩).gpu_id, GPUState.BUSY⟩) (h := hlen)
      have hmem2 := List.getElem_mem hlen
      rw [hget] at hmem2
      exact hmem2
    · rw [← hslot, hs]

/-- C6: whenever `acquire_gpu` hands the dispatcher a slot, `execute`
reaches an exit with the slot released (its id passed to `release_gpu`,
so the slot is AVAILABLE afterwards), on the normal path and on the
raising path alike; an execution failure is propagated to the caller
exactly as raised, never swallowed. -/
theorem execute_releases_on_every_path (env : ExecEnv) (gm : GPUManager)
    (request : InferenceRequest) (gpu : GPUSlot) (gm1 : GPUManager)
    (hacq : gm.acquire_gpu = some (gpu, gm1)) :
    ∃ res gmF, InferenceWorker.execute env gm request = some (res, gmF) ∧
      gmF = gm1.release_gpu gpu.gpu_id ∧
      gmF.get_gpu_state gpu.gpu_id = Except.ok GPUState.AVAILABLE ∧
      (∀ e, env.outcome = Except.error e → res = Except.error e) ∧
      (∀ e, res = Except.error e → env.outcome = Except.error e) := by
  have hmem := acquire_slot_mem hacq
  have hrel := release_get_state gm1 gpu.gpu_id hmem
  unfold InferenceWorker.execute
  rw [hacq]
  cases hout : env.outcome with
  | error e =>
    refine ⟨.error e, gm1.release_gpu gpu.gpu_id, rfl, rfl, hrel, ?_, ?_⟩
    · intro e2 he2
      injection he2 with h2
      rw [h2]
    · intro e2 he2
      injection he2 with h2
      rw [h2]
  | ok u =>
    refine ⟨_, gm1.release_gpu gpu.gpu_id, rfl, rfl, hrel, ?_, ?_⟩
    · intro e2 he2
      exact Except.noConfusion he2
    · intro e2 he2
      exact Except.noConfusion he2

/-- Witness for C6 on a one-slot pool with a failing execution step. -/
theorem execute_releases_on_every_path_witness :
    ∃ res gmF, InferenceWorker.execute
        ⟨"uuid-1", 42, Except.error ⟨7⟩⟩ (GPUManager.init 1)
        ⟨"model-a", "hello", Priority.MEDIUM, none⟩ = some (res, gmF) ∧
      gmF = (GPUManager.mk [⟨0, GPUState.BUSY⟩]).release_gpu 0 ∧
      gmF.get_gpu_state 0 = Except.ok GPUState.AVAILABLE ∧
      (∀ e, (Except.error ⟨7⟩ : Except ExecError Unit) = Except.error e →
        res = Except.error e) ∧
      (∀ e, res = Except.error e →
        (Except.error ⟨7⟩ : Except ExecError Unit) = Except.error e) :=
  execute_releases_on_every_path ⟨"uuid-1", 42, Except.error ⟨7⟩⟩
    (GPUManager.init 1) ⟨"model-a", "hello", Priority.MEDIUM, none⟩
    ⟨0, GPUState.BUSY⟩ (GPUManager.mk [⟨0, GPUState.BUSY⟩]) (by decide)

/-- Counterexample to C8 as stated: the code computes
`request.request_id or str(uuid.uuid4())`, and Python's `or` treats the
empty string as falsy.  With the caller-supplied request id being the
empty string, execution succeeds but the response carries the generated
uuid, not the id the caller supplied. -/
theorem execute_empty_request_id_counterexample :
    ∃ resp gmF, InferenceWorker.execute ⟨"uuid-1", 42, Except.ok ()⟩
        (GPUManager.init 1) ⟨"model-a", "hello", Priority.MEDIUM, some ""⟩ =
        some (Except.ok resp, gmF) ∧
      resp.request_id = "uuid-1" ∧ resp.request_id ≠ "" := by
  refine ⟨_, _, rfl, rfl, by decide⟩

/-- C8 (amended): on a successful execution, the response carries the
resolved job identifier — the caller-supplied `request_id` whenever the
caller supplied a non-empty one, and the freshly generated uuid when
the caller supplied none or supplied the empty string — together with
the id of the slot that was used and the elapsed execution time. -/
theorem execute_success_response_fields (env : ExecEnv) (gm : GPUManager)
    (request : InferenceRequest) (gpu : GPUSlot) (gm1 : GPUManager)
    (hacq : gm.acquire_gpu = some (gpu, gm1))
    (hok : env.outcome = Except.ok ()) :
    ∃ resp gmF, InferenceWorker.execute env gm request =
        some (Except.ok resp, gmF) ∧
      resp.request_id = pyOr request.request_id env.uuid ∧
      (∀ rid, request.request_id = some rid → rid ≠ "" →
        resp.request_id = rid) ∧
      (request.request_id = none ∨ request.request_id = some "" →
        resp.request_id = env.uuid) ∧
      resp.gpu_id = gpu.gpu_id ∧
      resp.inference_time_ms = env.elapsed_ms := by
  unfold InferenceWorker.execute
  rw [hacq, hok]
  refine ⟨_, _, rfl, rfl, ?_, ?_, rfl, rfl⟩
  · intro rid hrid hne
    simp [pyOr, hrid, hne]
  · intro hcase
    rcases hcase with hnone | hempty
    · simp [pyOr, hnone]
    · simp [pyOr, hempty]

/-- Witness for C8, once with a non-empty caller-supplied id and once
without one. -/
theorem execute_success_response_fields_witness :
    (∃ resp gmF, InferenceWorker.execute
        ⟨"uuid-1", 42, Except.ok ()⟩ (GPUManager.init 1)
        ⟨"model-a", "hello", Priority.MEDIUM, some "req-9"⟩ =
          some (Except.ok resp, gmF) ∧
      resp.request_id = pyOr (some "req-9") "uuid-1" ∧
      (∀ rid, (some "req-9" : Option String) = some rid → rid ≠ "" →
        resp.request_id = rid) ∧
      ((some "req-9" : Option String) = none ∨
          (some "req-9" : Option String) = some "" →
        resp.request_id = "uuid-1") ∧
      resp.gpu_id = 0 ∧
      resp.inference_time_ms = 42) ∧
    (∃ resp gmF, InferenceWorker.execute
        ⟨"uuid-1", 42, Except.ok ()⟩ (GPUManager.init 1)
        ⟨"model-a", "hello", Priority.MEDIUM, none⟩ =
          some (Except.ok resp, gmF) ∧
      resp.request_id = pyOr none "uuid-1" ∧
      (∀ rid, (none : Option String) = some rid → rid ≠ "" →
        resp.request_id = rid) ∧
      ((none : Option String) = none ∨ (none : Option String) = some "" →
        resp.request_id = "uuid-1") ∧
      resp.gpu_id = 0 ∧
      resp.inference_time_ms = 42) :=
  ⟨execute_success_response_fields ⟨"uuid-1", 42, Except.ok ()⟩
      (GPUManager.init 1) ⟨"model-a", "hello", Priority.MEDIUM, some "req-9"⟩
      ⟨0, GPUState.BUSY⟩ (GPUManager.mk [⟨0, GPUState.BUSY⟩])
      (by decide) rfl,
   execute_success_response_fields ⟨"uuid-1", 42, Except.ok ()⟩
      (GPUManager.init 1) ⟨"model-a", "hello", Priority.MEDIUM, none⟩
      ⟨0, GPUState.BUSY⟩ (GPUManager.mk [⟨0, GPUState.BUSY⟩])
      (by decide) rfl⟩

/-- Raised by `asyncio.Future.set_result` and `set_exception` when the
future is already resolved. -/
structure InvalidStateError where
deriving DecidableEq, Repr

/-- An `asyncio.Future` (external collaborator): a write-once result
holder.  `writes` counts how many successful resolutions the future has
received, making "resolved exactly once" directly observable. -/
structure Future (α : Type) where
  writes : Nat
  value : Option (Except ExecError α)
deriving Repr

/-- `asyncio.Future()` as created by `Orchestrator._enqueue`: pending,
never written. -/
def Future.fresh (α : Type) : Future α := ⟨0, none⟩

/-- `Future.set_result`: resolves a pending future with a value; raises
`InvalidStateError` on a future that is already resolved. -/
def Future.set_result {α : Type} (f : Future α) (v : α) :
    Except InvalidStateError (Future α) :=
  if f.value.isSome then .error ⟨⟩
  else .ok ⟨f.writes + 1, some (.ok v)⟩

/-- `Future.set_exception`: resolves a pending future with an
exception; raises `InvalidStateError` on a resolved future. -/
def Future.set_exception {α : Type} (f : Future α) (e : ExecError) :
    Except InvalidStateError (Future α) :=
  if f.value.isSome then .error ⟨⟩
  else .ok ⟨f.writes + 1, some (.error e)⟩

/-- Awaiting a future, as `submit` does after enqueuing: returns the
resolution (the value, or the re-raised exception); `none` models an
await that suspends because the future is still pending. -/
def Future.await_result {α : Type} (f : Future α) :
    Option (Except ExecError α) := f.value

/-- `Orchestrator._execute_and_resolve` (`services/orchestrator.py`):
run `InferenceWorker.execute` under `try`; on success `set_result`, on
exception `set_exception`.  If the future were already resolved,
`set_result` raises `InvalidStateError`, the `except` clause catches it
and calls `set_exception`, which raises again and kills only this task:
either way the future object is left unchanged. -/
def Orchestrator.execute_and_resolve (env : ExecEnv) (gm : GPUManager)
    (request : InferenceRequest) (future : Future InferenceResponse) :
    Option (Future InferenceResponse × GPUManager) :=
  match InferenceWorker.execute env gm request with
  | none => none
  | some (res, gmF) =>
    match res with
    | .ok r =>
      match future.set_result r with
      | .ok f2 => some (f2, gmF)
      | .error _ => some (future, gmF)
    | .error e =>
      match future.set_exception e with
      | .ok f2 => some (f2, gmF)
      | .error _ => some (future, gmF)

/-- C7: the fresh future created by `submit` is resolved by the
dispatch exactly once — `writes` goes from 0 to 1, with the execution's
result on success and its exception on failure — awaiting it (as
`submit` does) returns exactly that resolution, and a future that is
already resolved is never written again. -/
theorem future_resolved_exactly_once (env : ExecEnv) (gm : GPUManager)
    (request : InferenceRequest) (gpu : GPUSlot) (gm1 : GPUManager)
    (hacq : gm.acquire_gpu = some (gpu, gm1)) :
    ∃ res gmF,
      InferenceWorker.execute env gm request = some (res, gmF) ∧
      Orchestrator.execute_and_resolve env gm request
        (Future.fresh InferenceResponse) = some (⟨1, some res⟩, gmF) ∧
      Future.await_result (⟨1, some res⟩ : Future InferenceResponse) =
        some res ∧
      (∀ f : Future InferenceResponse, f.value.isSome →
        Orchestrator.execute_and_resolve env gm request f = some (f, gmF)) := by
  cases hout : env.outcome with
  | error e =>
    have hex : InferenceWorker.execute env gm request =
        some (.error e, gm1.release_gpu gpu.gpu_id) := by
      unfold InferenceWorker.execute
      rw [hacq, hout]
    refine ⟨.error e, gm1.release_gpu gpu.gpu_id, hex, ?_, rfl, ?_⟩
    · unfold Orchestrator.execute_and_resolve
      rw [hex]
      rfl
    · intro f hf
      unfold Orchestrator.execute_and_resolve
      rw [hex]
      simp only [Future.set_exception, hf]
      rfl
  | ok u =>
    have hex : InferenceWorker.execute env gm request =
        some (.ok {
          request_id := pyOr request.request_id env.uuid,
          model_id := request.model_id,
          output := "Mock output for: " ++ request.prompt.take 50,
          gpu_id := gpu.gpu_id,
          inference_time_ms := env.elapsed_ms },
          gm1.release_gpu gpu.gpu_id) := by
      unfold InferenceWorker.execute
      rw [hacq, hout]
    refine ⟨_, gm1.release_gpu gpu.gpu_id, hex, ?_, rfl, ?_⟩
    · unfold Orchestrator.execute_and_resolve
      rw [hex]
      rfl
    · intro f hf
      unfold Orchestrator.execute_and_resolve
      rw [hex]
      simp only [Future.set_result, hf]
      rfl

/-- Witness for C7 with a succeeding execution on a one-slot pool. -/
theorem future_resolved_exactly_once_witness :
    ∃ res gmF,
      InferenceWorker.execute ⟨"uuid-1", 42, Except.ok ()⟩
        (GPUManager.init 1) ⟨"model-a", "hello", Priority.MEDIUM, none⟩ =
        some (res, gmF) ∧
      Orchestrator.execute_and_resolve ⟨"uuid-1", 42, Except.ok ()⟩
        (GPUManager.init 1) ⟨"model-a", "hello", Priority.MEDIUM, none⟩
        (Future.fresh InferenceResponse) = some (⟨1, some res⟩, gmF) ∧
      Future.await_result (⟨1, some res⟩ : Future InferenceResponse) =
        some res ∧
      (∀ f : Future InferenceResponse, f.value.isSome →
        Orchestrator.execute_and_resolve ⟨"uuid-1", 42, Except.ok ()⟩
          (GPUManager.init 1) ⟨"model-a", "hello", Priority.MEDIUM, none⟩ f =
          some (f, gmF)) :=
  future_resolved_exactly_once ⟨"uuid-1", 42, Except.ok ()⟩
    (GPUManager.init 1) ⟨"model-a", "hello", Priority.MEDIUM, none⟩
    ⟨0, GPUState.BUSY⟩ (GPUManager.mk [⟨0, GPUState.BUSY⟩]) (by decide)

/-- Python `str.lower` on the characters of a string.  `Char.toLower`
lowercases the ASCII range, which covers every case variant of the
accepted keywords. -/
def pyLower (s : String) : String := String.mk (s.data.map Char.toLower)

/-- A value arriving in the priority field before validation: a string,
or already a `Priority` member. -/
inductive PriorityValue where
  | str (s : String)
  | pri (p : Priority)
deriving DecidableEq, Repr

/-- `InferenceRequest.parse_priority` (`models/request.py`, a
before-mode field validator): a string whose lowercase form is one of
high / medium / low becomes the matching `Priority`; any other value is
returned unchanged for pydantic's own enum validation. -/
def parse_priority : PriorityValue → PriorityValue
  | .str s =>
    if pyLower s = "high" then .pri Priority.HIGH
    else if pyLower s = "medium" then .pri Priority.MEDIUM
    else if pyLower s = "low" then .pri Priority.LOW
    else .str s
  | v => v

/-- The declared default of the priority field:
`Field(default=Priority.MEDIUM)`. -/
def default_priority : Priority := Priority.MEDIUM

/-- C9: `parse_priority` maps every case variant of high, medium and
low to HIGH = 1, MEDIUM = 2 and LOW = 3 respectively, and a request
constructed without a priority value receives the default MEDIUM. -/
theorem parse_priority_case_insensitive :
    (∀ s : String, pyLower s = "high" →
      parse_priority (.str s) = .pri Priority.HIGH) ∧
    (∀ s : String, pyLower s = "medium" →
      parse_priority (.str s) = .pri Priority.MEDIUM) ∧
    (∀ s : String, pyLower s = "low" →
      parse_priority (.str s) = .pri Priority.LOW) ∧
    Priority.HIGH.toNat = 1 ∧ Priority.MEDIUM.toNat = 2 ∧
    Priority.LOW.toNat = 3 ∧
    default_priority = Priority.MEDIUM := by
  refine ⟨?_, ?_, ?_, rfl, rfl, rfl, rfl⟩
  · intro s h
    show (if pyLower s = "high" then PriorityValue.pri Priority.HIGH
      else if pyLower s = "medium" then PriorityValue.pri Priority.MEDIUM
      else if pyLower s = "low" then PriorityValue.pri Priority.LOW
      else PriorityValue.str s) = PriorityValue.pri Priority.HIGH
    rw [if_pos h]
  · intro s h
    show (if pyLower s = "high" then PriorityValue.pri Priority.HIGH
      else if pyLower s = "medium" then PriorityValue.pri Priority.MEDIUM
      else if pyLower s = "low" then PriorityValue.pri Priority.LOW
      else PriorityValue.str s) = PriorityValue.pri Priority.MEDIUM
    rw [if_neg (by rw [h]; decide), if_pos h]
  · intro s h
    show (if pyLower s = "high" then PriorityValue.pri Priority.HIGH
      else if pyLower s = "medium" then PriorityValue.pri Priority.MEDIUM
      else if pyLower s = "low" then PriorityValue.pri Priority.LOW
      else PriorityValue.str s) = PriorityValue.pri Priority.LOW
    rw [if_neg (by rw [h]; decide), if_neg (by rw [h]; decide), if_pos h]

/-- Witness for C9 on the concrete case variants HIGH, Medium, lOw. -/
theorem parse_priority_case_insensitive_witness :
    parse_priority (.str "HIGH") = .pri Priority.HIGH ∧
    parse_priority (.str "Medium") = .pri Priority.MEDIUM ∧
    parse_priority (.str "lOw") = .pri Priority.LOW ∧
    default_priority = Priority.MEDIUM :=
  ⟨(parse_priority_case_insensitive).1 "HIGH" (by decide),
   (parse_priority_case_insensitive).2.1 "Medium" (by decide),
   (parse_priority_case_insensitive).2.2.1 "lOw" (by decide),
   (parse_priority_case_insensitive).2.2.2.2.2.2⟩

end InferenceAllocator
